import Mathlib

/-
  Verification of the scrapemaster-intelligence fetch-and-extract core.

  Shallow embedding of the Python sources:
    - src/src/core/scraper.py        (RateLimiter, CircuitBreaker, ResponseCache,
                                      WebScraper extraction and price coercion)
    - src/src/core/stealth_scraper.py (ProxyRotator, StealthScraper strategy ladder)
    - src/src/core/models.py          (ScrapedData.compare_with change classification)

  Wall-clock instants and durations are rational numbers (seconds); Python dicts
  that the code only reads and writes by key are association lists; network and
  filesystem effects enter the model as explicit parameters (oracles) so that the
  control flow around them is translated verbatim.
-/

set_option maxRecDepth 4000

namespace ScrapeMaster

/-! Circuit breaker: scraper.py, class CircuitBreaker (lines 62-97). -/

/-- The three states of scraper.py's `CircuitBreaker.state` string field:
`'closed'`, `'open'`, `'half-open'`. -/
inductive CBState where
  | closed
  | opened
  | halfOpen
deriving DecidableEq

/-- State of scraper.py's `CircuitBreaker` object.  `last_failure_time` is `None`
initially and a wall-clock instant (seconds, modelled as a rational) afterwards. -/
structure CircuitBreaker where
  failure_threshold : ℕ
  recovery_timeout : ℚ
  failure_count : ℕ
  last_failure_time : Option ℚ
  state : CBState
deriving DecidableEq

/-- Embedding of `CircuitBreaker.call_succeeded`: reset the counter and close. -/
def call_succeeded (cb : CircuitBreaker) : CircuitBreaker :=
  { cb with failure_count := 0, state := CBState.closed }

/-- Embedding of `CircuitBreaker.call_failed` at instant `now`: increment the
counter, stamp the failure time, and open once the incremented counter reaches
`failure_threshold` (the source increments first and then compares `>=`). -/
def call_failed (now : ℚ) (cb : CircuitBreaker) : CircuitBreaker :=
  if cb.failure_threshold ≤ cb.failure_count + 1 then
    { cb with failure_count := cb.failure_count + 1, last_failure_time := some now,
              state := CBState.opened }
  else
    { cb with failure_count := cb.failure_count + 1, last_failure_time := some now }

/-- Python truthiness of the `last_failure_time` field: `None` and `0.0` are falsy
(the source guards with `if self.state == 'open' and self.last_failure_time:`). -/
def pyTruthyTime : Option ℚ → Bool
  | none => false
  | some t => decide (t ≠ 0)

/-- Embedding of the `CircuitBreaker.is_open` property: returns the boolean the
property evaluates to together with the (possibly mutated) breaker, since the
property flips `'open'` to `'half-open'` once `recovery_timeout` has elapsed. -/
def is_open (now : ℚ) (cb : CircuitBreaker) : Bool × CircuitBreaker :=
  if cb.state = CBState.closed then (false, cb)
  else if cb.state = CBState.opened ∧ pyTruthyTime cb.last_failure_time = true ∧
      cb.recovery_timeout < now - cb.last_failure_time.getD 0 then
    (false, { cb with state := CBState.halfOpen })
  else (decide (cb.state = CBState.opened), cb)

/-- Folding `call_failed` over a list of failure instants: a run of consecutive
failure reports with no intervening success. -/
def call_failed_many (cb : CircuitBreaker) (ts : List ℚ) : CircuitBreaker :=
  ts.foldl (fun c t => call_failed t c) cb

/-- Breaker guard at the top of `WebScraper.scrape_target_async` (scraper.py lines
258-264): `if circuit_breaker.is_open: return None`.  The remainder of the method
(rate limiting, cache, network fetch) is abstracted into `fetch`; when the guard
fires the result is `None` and `fetch` is never consulted. -/
def scrape_target_gate {α : Type} (now : ℚ) (cb : CircuitBreaker)
    (fetch : CircuitBreaker → Option α × CircuitBreaker) : Option α × CircuitBreaker :=
  let r := is_open now cb
  if r.1 then (none, r.2) else fetch r.2

/-! Rate limiter: scraper.py, class RateLimiter (lines 38-61). -/

/-- State of scraper.py's `RateLimiter` token bucket. -/
structure RateLimiter where
  rate : ℚ
  burst : ℕ
  tokens : ℚ
  last_update : ℚ
deriving DecidableEq

/-- Embedding of `RateLimiter.acquire` called at instant `now`: replenish tokens
from elapsed wall-clock time, capped at `burst`; if fewer than one token is
available sleep `(1 - tokens) / rate` seconds and leave with zero tokens (the
source sets `tokens = 1` after the sleep and then consumes it), otherwise leave
without sleeping and consume one token.  The returned rational is the duration
slept; the call always returns, it never fails. -/
def acquire (now : ℚ) (rl : RateLimiter) : ℚ × RateLimiter :=
  let tokens := min (rl.burst : ℚ) (rl.tokens + (now - rl.last_update) * rl.rate)
  if tokens < 1 then
    ((1 - tokens) / rl.rate, { rl with tokens := 0, last_update := now })
  else
    (0, { rl with tokens := tokens - 1, last_update := now })

/-- Iterated `acquire` with zero wall-clock time between the calls (all at the
same instant `now`), collecting the slept durations in order. -/
def acquire_repeat (now : ℚ) : ℕ → RateLimiter → List ℚ × RateLimiter
  | 0, rl => ([], rl)
  | Nat.succ n, rl =>
    let r := acquire now rl
    let rest := acquire_repeat now n r.2
    (r.1 :: rest.1, rest.2)

/-! Response cache: scraper.py, class ResponseCache (lines 99-165). -/

/-- A cached HTTP response: body text and status code. -/
abbrev Response := String × ℤ

/-- Cache key.  The source keys entries by the sha256 hex digest of the canonical
JSON of `{'url': url, 'headers': headers}`; the digest is modelled by the hashed
content itself (an injective stand-in), so `_get_cache_key` is the pair. -/
abbrev CacheKey := String × List (String × String)

/-- Embedding of `ResponseCache._get_cache_key`. -/
def get_cache_key (url : String) (headers : List (String × String)) : CacheKey :=
  (url, headers)

/-- Association-list lookup of the first entry with the given key (Python dict
subscript; dicts never hold duplicate keys). -/
def alLookup {κ α : Type} [DecidableEq κ] (k : κ) : List (κ × α) → Option α
  | [] => none
  | (k2, v) :: rest => if k2 = k then some v else alLookup k rest

/-- Association-list write `d[k] = v`: replace the entry in place if the key is
present, append otherwise (Python dicts keep insertion order). -/
def alInsert {κ α : Type} [DecidableEq κ] (k : κ) (v : α) : List (κ × α) → List (κ × α)
  | [] => [(k, v)]
  | (k2, v2) :: rest => if k2 = k then (k, v) :: rest else (k2, v2) :: alInsert k v rest

/-- Association-list `del d[k]`: drop the first entry with the given key. -/
def alErase {κ α : Type} [DecidableEq κ] (k : κ) : List (κ × α) → List (κ × α)
  | [] => []
  | (k2, v2) :: rest => if k2 = k then rest else (k2, v2) :: alErase k rest

/-- State of scraper.py's `ResponseCache`.  The source maintains `self.cache[key]`
and `self.access_times[key]` with identical key sets (every write and delete
touches both), so the memory tier is modelled as one association list from key to
(write instant, response); `disk` models the pickle files under `cache_dir`, one
per key, each holding its write timestamp and response. -/
structure ResponseCache where
  max_size : ℕ
  ttl_seconds : ℚ
  mem : List (CacheKey × ℚ × Response)
  disk : List (CacheKey × ℚ × Response)

/-- First key achieving the minimal timestamp, scanning in insertion order:
embedding of `min(self.access_times, key=self.access_times.get)` (Python's `min`
keeps the earliest minimum). -/
def oldestKeyAux (bk : CacheKey) (bt : ℚ) : List (CacheKey × ℚ × Response) → CacheKey
  | [] => bk
  | (k, ts, _) :: rest => if ts < bt then oldestKeyAux k ts rest else oldestKeyAux bk bt rest

/-- Oldest key of the memory tier, `none` when it is empty (in which case the
source's `min` raises `ValueError`). -/
def oldestKey : List (CacheKey × ℚ × Response) → Option CacheKey
  | [] => none
  | (k, ts, _) :: rest => some (oldestKeyAux k ts rest)

/-- Embedding of the disk-tier block of `ResponseCache.get` (lines 129-141): if a
cache file for the key exists and is fresh, promote it to memory (keeping its
original timestamp) and return it; an expired file yields a miss and the file is
left in place (the source unlinks a file only when unpickling raises, which
cannot happen for the well-formed files `set` writes). -/
def disk_tier_get (now : ℚ) (key : CacheKey) (rc : ResponseCache) :
    Option Response × ResponseCache :=
  match alLookup key rc.disk with
  | some (ts, resp) =>
    if now - ts < rc.ttl_seconds then
      (some resp, { rc with mem := alInsert key (ts, resp) rc.mem })
    else (none, rc)
  | none => (none, rc)

/-- Embedding of `ResponseCache.get`: a fresh memory entry is a hit; an expired
memory entry is deleted from the memory tier and the disk tier is consulted. -/
def ResponseCache.get (now : ℚ) (url : String) (headers : List (String × String))
    (rc : ResponseCache) : Option Response × ResponseCache :=
  let key := get_cache_key url headers
  match alLookup key rc.mem with
  | some (ts, resp) =>
    if now - ts < rc.ttl_seconds then (some resp, rc)
    else disk_tier_get now key { rc with mem := alErase key rc.mem }
  | none => disk_tier_get now key rc

/-- Embedding of `ResponseCache.set`: when the memory tier has reached
`max_size`, evict the entry with the oldest timestamp, then write the response
with the current instant to both tiers.  Returns `none` exactly when the source
raises (`min` over an empty `access_times`, possible only with `max_size = 0`
and an empty memory tier). -/
def ResponseCache.set (now : ℚ) (url : String) (headers : List (String × String))
    (resp : Response) (rc : ResponseCache) : Option ResponseCache :=
  let key := get_cache_key url headers
  let evicted : Option (List (CacheKey × ℚ × Response)) :=
    if rc.max_size ≤ rc.mem.length then
      match oldestKey rc.mem with
      | some ok => some (alErase ok rc.mem)
      | none => none
    else some rc.mem
  match evicted with
  | none => none
  | some mem =>
    some { rc with mem := alInsert key (now, resp) mem,
                   disk := alInsert key (now, resp) rc.disk }

/-! Extracted values and change detection: models.py, `ScrapedData.compare_with`
and `ScrapedData._detect_change_type` (lines 167-205). -/

/-- A value extracted for one field: Python numbers (int/float — both count as
numeric for `_detect_change_type`'s `isinstance` test) or non-numeric values,
represented by their text (extracted text, availability labels; the classifier
treats every non-numeric pair uniformly, so text stands in for all of them). -/
inductive Value where
  | num (q : ℚ)
  | str (s : String)
deriving DecidableEq

/-- Embedding of `ScrapedData._detect_change_type`: numeric comparison when both
values are numbers, `'modified'` otherwise (including the fall-through for equal
numbers, which the caller never reaches). -/
def detect_change_type (previous current : Value) : String :=
  match previous, current with
  | Value.num p, Value.num c =>
    if p < c then "increased"
    else if c < p then "decreased"
    else "modified"
  | _, _ => "modified"

/-- One entry of the change dict built by `ScrapedData.compare_with`. -/
structure Change where
  previous : Option Value
  current : Option Value
  change_type : String
deriving DecidableEq

/-- Body of the first loop of `compare_with` for one current field: a differing
pair is classified by `_detect_change_type`, a field absent from the previous
data is `'added'`, an unchanged field produces no entry. -/
def compare_entry (previous : List (String × Value)) (key : String) (cv : Value) :
    Option Change :=
  match alLookup key previous with
  | some pv =>
    if cv ≠ pv then some ⟨some pv, some cv, detect_change_type pv cv⟩ else none
  | none => some ⟨none, some cv, "added"⟩

/-- Body of the second loop of `compare_with` for one previous field: a field no
longer present in the current data is `'removed'`. -/
def removed_entry (current : List (String × Value)) (key : String) (pv : Value) :
    Option Change :=
  if alLookup key current = none then some ⟨some pv, none, "removed"⟩ else none

/-- Embedding of `ScrapedData.compare_with(previous)`: first pass over the
current data dict, second pass over the previous one; the two passes write
disjoint key sets into the changes dict, so the dict is their concatenation. -/
def compare_with (current previous : List (String × Value)) : List (String × Change) :=
  (current.filterMap fun p => (compare_entry previous p.1 p.2).map fun c => (p.1, c)) ++
  (previous.filterMap fun p => (removed_entry current p.1 p.2).map fun c => (p.1, c))

/-! Field extraction bookkeeping: scraper.py, `WebScraper._extract_data`
(lines 383-438). -/

/-- Outcome of `_extract_with_strategy` for one field as seen by the extraction
loop: a non-null value, a null (no strategy matched), or a raised
selector-evaluation exception with its message.  The selector strategies
themselves walk the parse tree and are the loop's oracle. -/
inductive FieldOutcome where
  | val (v : Value)
  | nullVal
  | exn (msg : String)
deriving DecidableEq

/-- The extraction loop of `_extract_data` (lines 397-410) over the selector map
in order: collect the extracted values, count the successes, record a warning
for each null field and an error for each raising field, and continue with the
remaining fields after every outcome. -/
def extract_fields : List (String × FieldOutcome) →
    List (String × Value) × ℕ × List String × List String
  | [] => ([], 0, [], [])
  | (name, o) :: rest =>
    let r := extract_fields rest
    match o with
    | FieldOutcome.val v => ((name, v) :: r.1, r.2.1 + 1, r.2.2.1, r.2.2.2)
    | FieldOutcome.nullVal =>
      (r.1, r.2.1, r.2.2.1, ("No data found for " ++ name) :: r.2.2.2)
    | FieldOutcome.exn m =>
      (r.1, r.2.1, ("Error extracting " ++ name ++ ": " ++ m) :: r.2.2.1, r.2.2.2)

/-- Embedding of the success-rate computation of `_extract_data` (line 413):
`successful_extractions / total_selectors * 100`, and 0 for an empty selector
map. -/
def extraction_rate (fields : List (String × FieldOutcome)) : ℚ :=
  if 0 < fields.length then
    ((extract_fields fields).2.1 : ℚ) / (fields.length : ℚ) * 100
  else 0

/-- Number of requested fields whose extraction yielded a non-null value. -/
def numNonNull (fields : List (String × FieldOutcome)) : ℕ :=
  (fields.filter fun p =>
    match p.2 with | FieldOutcome.val _ => true | _ => false).length

/-- Classification stated by the specification for a differing pair of values:
`increased`/`decreased` by numeric comparison when both are numeric, `modified`
otherwise.  Compared against the source's `_detect_change_type` in C8. -/
def claimed_change_type (pv cv : Value) : String :=
  match pv, cv with
  | Value.num p, Value.num c => if p < c then "increased" else "decreased"
  | _, _ => "modified"

/-! Price coercion: scraper.py, `WebScraper._extract_price` (lines 516-537).
The input is the matched element's text (`element.get_text(strip=True)`) as a
list of characters. -/

/-- Characters preserved by `re.sub(r'[^\d.,\-]', '', text)`. -/
def isPriceChar (c : Char) : Bool :=
  c.isDigit || c = '.' || c = ',' || c = '-'

/-- Embedding of `re.sub(r'[^\d.,\-]', '', text)`. -/
def strip_currency (s : List Char) : List Char := s.filter isPriceChar

/-- Embedding of `price_text.replace(',', '')`. -/
def remove_commas (s : List Char) : List Char := s.filter fun c => c ≠ ','

/-- Numeric value of a digit string, most significant digit first. -/
def digitsVal (s : List Char) : ℕ :=
  s.foldl (fun a c => a * 10 + (c.toNat - ('0').toNat)) 0

/-- Decimal parse of Python `float(body)` for a sign-free body over the alphabet
reachable here (digits, '.', ',', '-'): digits with at most one decimal point
and at least one digit; anything else raises `ValueError`, modelled as `none`.
The parsed value is returned as (mantissa, number of fraction digits), i.e. the
rational mantissa / 10 ^ scale. -/
def pyFloatBodyParts (body : List Char) : Option (ℤ × ℕ) :=
  if body.count '.' = 0 then
    if body ≠ [] ∧ body.all Char.isDigit then some ((digitsVal body : ℤ), 0) else none
  else if body.count '.' = 1 then
    let ip := body.takeWhile fun c => c ≠ '.'
    let fp := (body.dropWhile fun c => c ≠ '.').tail
    if (ip ≠ [] ∨ fp ≠ []) ∧ ip.all Char.isDigit ∧ fp.all Char.isDigit then
      some (((digitsVal ip * 10 ^ fp.length + digitsVal fp : ℕ) : ℤ), fp.length)
    else none
  else none

/-- Python `float(s)` over this alphabet: an optional leading minus sign, then a
decimal body. -/
def pyFloatParts (s : List Char) : Option (ℤ × ℕ) :=
  match s with
  | '-' :: body => (pyFloatBodyParts body).map fun p => (-p.1, p.2)
  | _ => pyFloatBodyParts s

/-- First match of `re.findall(r'\d+\.?\d*', s)`: the leftmost maximal digit
run, optionally followed by one point and a further digit run. -/
def first_number : List Char → Option (List Char)
  | [] => none
  | c :: rest =>
    if c.isDigit then
      let ds := (c :: rest).takeWhile Char.isDigit
      let rem := (c :: rest).dropWhile Char.isDigit
      match rem with
      | '.' :: rem2 => some (ds ++ '.' :: rem2.takeWhile Char.isDigit)
      | _ => some ds
    else first_number rest

/-- Embedding of `_extract_price` up to the representation of the resulting
float as (mantissa, scale): strip non-price characters, delete every comma,
then (1) parse directly when exactly one point remains, (2) swap a single
remaining comma for a point and parse — the branch kept verbatim from the
source even though step "delete every comma" makes it unreachable —, (3)
otherwise parse the first embedded number, if any; a parse failure anywhere is
the source's `except: return None`. -/
def extract_price_parts (text : List Char) : Option (ℤ × ℕ) :=
  let pt := remove_commas (strip_currency text)
  if pt.count '.' = 1 then pyFloatParts pt
  else if pt.count ',' = 1 then
    pyFloatParts (pt.map fun c => if c = ',' then '.' else c)
  else
    match first_number pt with
    | some n => pyFloatParts n
    | none => none

/-- Rational value of a (mantissa, scale) pair. -/
def ratOfParts (p : ℤ × ℕ) : ℚ := (p.1 : ℚ) / (10 : ℚ) ^ p.2

/-- Embedding of `WebScraper._extract_price`: the coerced numeric value. -/
def extract_price (text : List Char) : Option ℚ :=
  (extract_price_parts text).map ratOfParts

/-! Proxy rotation: stealth_scraper.py, `ProxyConfig` (lines 27-58) and
`ProxyRotator` (lines 138-225). -/

/-- Selection-relevant state of a `ProxyConfig` (the address stands for url,
type and credentials, which selection never reads). -/
structure ProxyConfig where
  url : String
  last_used : Option ℚ
  success_count : ℕ
  fail_count : ℕ
  response_times : List ℚ
  blocked : Bool
deriving DecidableEq

/-- State of a `ProxyRotator`: proxy list, round-robin cursor, quarantine
window `retry_after` (30 minutes in the source). -/
structure ProxyRotator where
  proxies : List ProxyConfig
  current_index : ℕ
  retry_after : ℚ
deriving DecidableEq

/-- The `while attempts < len(self.proxies)` loop of `ProxyRotator.get_proxy`
(lines 181-195): inspect the proxy at `current_index`, advance the cursor
modulo the length, skip a blocked proxy whose quarantine window since
`last_used` has not yet elapsed, un-block one whose window has elapsed, stamp
`last_used` and return it.  Returns the index of the chosen proxy (the source
returns the object itself and mutates it in place); `fuel` counts the remaining
iterations and equals `len - attempts` throughout, so running out of fuel
coincides with the loop condition failing.  A `datetime`-valued `last_used` is
always truthy in Python, hence only `none` fails the `proxy.last_used` guard. -/
def get_proxy_loop (now : ℚ) : ℕ → ℕ → ProxyRotator → Option ℕ × ProxyRotator
  | _, 0, pr => (none, pr)
  | attempts, fuel + 1, pr =>
    if attempts < pr.proxies.length then
      match pr.proxies[pr.current_index]? with
      | none => (none, pr)
      | some proxy =>
        if proxy.blocked then
          match proxy.last_used with
          | some t =>
            if pr.retry_after < now - t then
              (some pr.current_index,
               { pr with current_index := (pr.current_index + 1) % pr.proxies.length,
                         proxies := pr.proxies.set pr.current_index
                           { proxy with blocked := false, last_used := some now } })
            else
              get_proxy_loop now (attempts + 1) fuel
                { pr with current_index := (pr.current_index + 1) % pr.proxies.length }
          | none =>
            get_proxy_loop now (attempts + 1) fuel
              { pr with current_index := (pr.current_index + 1) % pr.proxies.length }
        else
          (some pr.current_index,
           { pr with current_index := (pr.current_index + 1) % pr.proxies.length,
                     proxies := pr.proxies.set pr.current_index
                       { proxy with last_used := some now } })
    else (none, pr)

/-- Embedding of `ProxyRotator.get_proxy`: `None` for an empty proxy list or
when every proxy is blocked inside its quarantine window. -/
def get_proxy (now : ℚ) (pr : ProxyRotator) : Option ℕ × ProxyRotator :=
  if pr.proxies.isEmpty then (none, pr)
  else get_proxy_loop now 0 pr.proxies.length pr

/-- Embedding of `ProxyRotator.mark_failure(proxy, block)` for the proxy at
index `i`: increment the failure counter and quarantine when the failure is
flagged as a block or the counter exceeds the hard-coded threshold 5. -/
def mark_failure (i : ℕ) (block : Bool) (pr : ProxyRotator) : ProxyRotator :=
  match pr.proxies[i]? with
  | none => pr
  | some p =>
    if block = true ∨ 5 < p.fail_count + 1 then
      { pr with proxies := (pr.proxies.set i
          { p with fail_count := p.fail_count + 1, blocked := true }) }
    else
      { pr with proxies := pr.proxies.set i { p with fail_count := p.fail_count + 1 } }

/-! Strategy ladder: stealth_scraper.py, `StealthScraper.scrape_with_strategy`
(lines 284-326), and the stealth branch of `WebScraper.scrape_target_async`
(scraper.py lines 277-314). -/

/-- Result of awaiting one fetch strategy, as seen by the ladder loop: the
strategy returned a data dict (possibly empty — the extractor records nothing
for unmatched selectors), returned `None`, or raised with message `msg`.  The
strategies perform network I/O and are the loop's oracle;
`_scrape_with_selenium_grid`, for instance, always returns `None`, and
`_scrape_with_cloudscraper` and `_scrape_with_httpx` catch their own
exceptions and return `None`. -/
inductive StrategyOutcome where
  | ret (data : List (String × Value))
  | retNone
  | raise (msg : String)
deriving DecidableEq

/-- Python truthiness of a strategy result: only a non-empty dict passes the
`if result:` test of the ladder loop. -/
def truthyResult : StrategyOutcome → Bool
  | StrategyOutcome.ret data => decide (data ≠ [])
  | _ => false

/-- The metadata dict built by `scrape_with_strategy`: attempt counter, name of
the successful strategy, and the error list holding one `(strategy, error)`
entry per strategy that raised.  The dict's `proxy_used` slot is initialized to
`None` and never assigned in the source, so it is omitted. -/
structure StrategyMetadata where
  attempts : ℕ
  successful_strategy : Option String
  errors : List (String × String)
deriving DecidableEq

/-- The `for strategy in strategies` loop of `scrape_with_strategy`: count every
attempt, return on the first truthy result recording the strategy's name,
append `(name, message)` to the error list when a strategy raises, fall through
without an error entry on a falsy result, and return `(None, metadata)` once
the ladder is exhausted. -/
def ladder_loop : List (String × StrategyOutcome) → StrategyMetadata →
    Option (List (String × Value)) × StrategyMetadata
  | [], md => (none, md)
  | (name, o) :: rest, md =>
    match o with
    | StrategyOutcome.ret data =>
      if data ≠ [] then
        (some data, { md with attempts := md.attempts + 1,
                              successful_strategy := some name })
      else ladder_loop rest { md with attempts := md.attempts + 1 }
    | StrategyOutcome.retNone =>
      ladder_loop rest { md with attempts := md.attempts + 1 }
    | StrategyOutcome.raise msg =>
      ladder_loop rest { md with attempts := md.attempts + 1,
                                 errors := md.errors ++ [(name, msg)] }

/-- Embedding of `scrape_with_strategy`, driven by the (name, outcome) pairs of
the configured strategies in ladder order. -/
def scrape_with_strategy (strats : List (String × StrategyOutcome)) :
    Option (List (String × Value)) × StrategyMetadata :=
  ladder_loop strats ⟨0, none, []⟩

/-- Error entries of the strategies that raised, in ladder order. -/
def raised_errors (strats : List (String × StrategyOutcome)) : List (String × String) :=
  strats.filterMap fun p =>
    match p.2 with
    | StrategyOutcome.raise msg => some (p.1, msg)
    | _ => none

/-- The fields of models.py's `ScrapedData` that the stealth branch of
`scrape_target_async` populates.  `hash_signature` (sha256 of the canonical
JSON of `data`) is not modelled, and `change_detected` comes from the
filesystem-backed `_detect_changes`, entering as a parameter. -/
structure ScrapedData where
  target_id : String
  data : List (String × Value)
  change_detected : Bool
  response_time_ms : ℤ
  status_code : ℤ
  extraction_success_rate : ℚ
  errors : List String
deriving DecidableEq

/-- Outcome of the stealth branch of `scrape_target_async`: a finished result
returned to the caller, or a fall-through to basic scraping. -/
inductive StealthPhase where
  | finished (sd : ScrapedData)
  | fallThrough
deriving DecidableEq

/-- Embedding of the stealth branch of `scrape_target_async` (scraper.py lines
281-314): on a truthy data dict from the ladder the breaker records a success
and a `ScrapedData` with `response_time_ms = 0`, `status_code = 200` and
`extraction_success_rate = 100.0` is returned, never consulting the selector
map again; on a falsy dict (or a raised stealth error) the branch falls through
to basic scraping with the breaker untouched. -/
def stealth_phase (target_id : String) (cb : CircuitBreaker)
    (ladder : Option (List (String × Value)) × StrategyMetadata)
    (change_detected : Bool) : StealthPhase × CircuitBreaker :=
  match ladder.1 with
  | some data =>
    if data ≠ [] then
      (StealthPhase.finished
        { target_id := target_id, data := data, change_detected := change_detected,
          response_time_ms := 0, status_code := 200,
          extraction_success_rate := 100, errors := [] }, call_succeeded cb)
    else (StealthPhase.fallThrough, cb)
  | none => (StealthPhase.fallThrough, cb)

/-! Concrete instances used by witnesses and counterexamples. -/

/-- A fresh breaker with threshold 3 and a 60-second recovery window. -/
def cbW : CircuitBreaker := ⟨3, 60, 0, none, CBState.closed⟩

/-- An open breaker (threshold 1, 10-second window) whose last failure was at
instant 5. -/
def cbHalf : CircuitBreaker := ⟨1, 10, 1, some 5, CBState.opened⟩

/-- URL used in cache examples. -/
def urlEx : String := "http://a"

/-- Response used in cache examples. -/
def respEx : Response := ("body", 200)

/-- An empty cache with capacity 5 and a 10-second TTL. -/
def rcEx : ResponseCache := ⟨5, 10, [], []⟩

/-- The cache `rcEx` after `set` at instant 0 with `urlEx`/`respEx`. -/
def rc1Ex : ResponseCache :=
  ⟨5, 10, [((urlEx, []), 0, respEx)], [((urlEx, []), 0, respEx)]⟩

/-- A two-field selector map outcome: one extracted field, one null field. -/
def fieldsEx : List (String × FieldOutcome) :=
  [("title", FieldOutcome.val (Value.str "t")), ("price", FieldOutcome.nullVal)]

/-- Current data `{"price": 80}`. -/
def curEx : List (String × Value) := [("price", Value.num 80)]

/-- Previous data `{"price": 100}`. -/
def prevEx : List (String × Value) := [("price", Value.num 100)]

/-- A quarantined proxy last selected at instant 0. -/
def pEx : ProxyConfig := ⟨"http://p", some 0, 0, 0, [], true⟩

/-- A rotator holding only `pEx`, cursor at 0, 30-second quarantine window. -/
def prEx : ProxyRotator := ⟨[pEx], 0, 30⟩

/-- A run of the five-strategy ladder in which every strategy fails without
raising: four return `None` (non-200 responses; `_scrape_with_selenium_grid`
always does) and the Playwright strategy returns an empty dict (no selector
matched), which is falsy. -/
def allFailEx : List (String × StrategyOutcome) :=
  [("_scrape_basic_request", StrategyOutcome.retNone),
   ("_scrape_with_cloudscraper", StrategyOutcome.retNone),
   ("_scrape_with_httpx", StrategyOutcome.retNone),
   ("_scrape_with_playwright", StrategyOutcome.ret []),
   ("_scrape_with_selenium_grid", StrategyOutcome.retNone)]

end ScrapeMaster

namespace ScrapeMaster

/-! Supporting lemmas for the circuit breaker. -/

theorem call_failed_failure_count (now : ℚ) (cb : CircuitBreaker) :
    (call_failed now cb).failure_count = cb.failure_count + 1 := by
  unfold call_failed; split <;> rfl

theorem call_failed_last (now : ℚ) (cb : CircuitBreaker) :
    (call_failed now cb).last_failure_time = some now := by
  unfold call_failed; split <;> rfl

theorem call_failed_threshold (now : ℚ) (cb : CircuitBreaker) :
    (call_failed now cb).failure_threshold = cb.failure_threshold := by
  unfold call_failed; split <;> rfl

theorem call_failed_timeout (now : ℚ) (cb : CircuitBreaker) :
    (call_failed now cb).recovery_timeout = cb.recovery_timeout := by
  unfold call_failed; split <;> rfl

theorem call_failed_many_failure_count (ts : List ℚ) (cb : CircuitBreaker) :
    (call_failed_many cb ts).failure_count = cb.failure_count + ts.length := by
  induction ts generalizing cb with
  | nil => simp [call_failed_many]
  | cons t ts ih =>
    show (call_failed_many (call_failed t cb) ts).failure_count = _
    rw [ih, call_failed_failure_count]
    simp [List.length_cons]; ring

theorem call_failed_many_threshold (ts : List ℚ) (cb : CircuitBreaker) :
    (call_failed_many cb ts).failure_threshold = cb.failure_threshold := by
  induction ts generalizing cb with
  | nil => rfl
  | cons t ts ih =>
    show (call_failed_many (call_failed t cb) ts).failure_threshold = _
    rw [ih, call_failed_threshold]

theorem call_failed_many_timeout (ts : List ℚ) (cb : CircuitBreaker) :
    (call_failed_many cb ts).recovery_timeout = cb.recovery_timeout := by
  induction ts generalizing cb with
  | nil => rfl
  | cons t ts ih =>
    show (call_failed_many (call_failed t cb) ts).recovery_timeout = _
    rw [ih, call_failed_timeout]

theorem call_failed_many_append_one (L : List ℚ) (t : ℚ) (cb : CircuitBreaker) :
    call_failed_many cb (L ++ [t]) = call_failed t (call_failed_many cb L) := by
  simp [call_failed_many, List.foldl_append]

theorem call_failed_many_last (L : List ℚ) (t : ℚ) (cb : CircuitBreaker) :
    (call_failed_many cb (L ++ [t])).last_failure_time = some t := by
  rw [call_failed_many_append_one]
  exact call_failed_last t _

theorem call_failed_many_state (L : List ℚ) (t : ℚ) (cb : CircuitBreaker)
    (hlen : cb.failure_threshold ≤ cb.failure_count + (L ++ [t]).length) :
    (call_failed_many cb (L ++ [t])).state = CBState.opened := by
  rw [call_failed_many_append_one]
  have hcount := call_failed_many_failure_count L cb
  have hth := call_failed_many_threshold L cb
  have hle : (call_failed_many cb L).failure_threshold ≤
      (call_failed_many cb L).failure_count + 1 := by
    rw [hcount, hth]
    simpa [Nat.add_assoc] using hlen
  unfold call_failed
  rw [if_pos hle]

theorem is_open_of_opened_within (now : ℚ) (cb : CircuitBreaker) (t : ℚ)
    (hst : cb.state = CBState.opened) (hlf : cb.last_failure_time = some t)
    (hwin : now - t ≤ cb.recovery_timeout) :
    is_open now cb = (true, cb) := by
  unfold is_open
  rw [if_neg (by rw [hst]; exact fun h => CBState.noConfusion h)]
  rw [if_neg ?hcond]
  · rw [hst]; simp
  case hcond =>
    rintro ⟨-, -, hgt⟩
    rw [hlf] at hgt
    exact absurd hwin (not_le.mpr (by simpa using hgt))

/-- C1: for every target, after `failure_threshold` consecutive failure reports
(`call_failed`) with no intervening success, the breaker state is `open`, and the
next `scrape_target_async` call (issued while the recovery window has not yet
elapsed) returns `None` without consulting the fetch path at all; any
`call_succeeded` resets the counter to zero and the state to `closed`. -/
theorem C1_breaker_opens_and_short_circuits {α : Type} (cb : CircuitBreaker)
    (L : List ℚ) (t : ℚ) (hlen : cb.failure_threshold ≤ (L ++ [t]).length) :
    (call_failed_many cb (L ++ [t])).state = CBState.opened ∧
    (call_failed_many cb (L ++ [t])).last_failure_time = some t ∧
    (∀ (now : ℚ) (fetch : CircuitBreaker → Option α × CircuitBreaker),
      now - t ≤ cb.recovery_timeout →
      scrape_target_gate now (call_failed_many cb (L ++ [t])) fetch =
        (none, call_failed_many cb (L ++ [t]))) ∧
    (∀ c : CircuitBreaker,
      (call_succeeded c).failure_count = 0 ∧ (call_succeeded c).state = CBState.closed) := by
  have hstate := call_failed_many_state L t cb (hlen.trans (Nat.le_add_left _ _))
  have hlast := call_failed_many_last L t cb
  refine ⟨hstate, hlast, ?_, fun c => ⟨rfl, rfl⟩⟩
  intro now fetch hwithin
  have htime := call_failed_many_timeout (L ++ [t]) cb
  have hopen := is_open_of_opened_within now (call_failed_many cb (L ++ [t])) t
    hstate hlast (by rw [htime]; exact hwithin)
  simp [scrape_target_gate, hopen]

theorem C1_breaker_opens_and_short_circuits_witness :
    (call_failed_many cbW ([10, 20] ++ [30])).state = CBState.opened ∧
    scrape_target_gate 50 (call_failed_many cbW ([10, 20] ++ [30]))
      (fun c => ((some 7 : Option ℕ), c)) = (none, call_failed_many cbW ([10, 20] ++ [30])) := by
  have h := C1_breaker_opens_and_short_circuits (α := ℕ) cbW [10, 20] 30 (by decide)
  exact ⟨h.1, h.2.2.1 50 _ (by norm_num [cbW])⟩

/-- C2 counterexample: breaker `cbHalf` is `open` with last failure at instant 5
and a 10-second window.  At instant 16 the window has elapsed: the first
`is_open` check admits a call (moving to `half-open`), but before that trial is
resolved a second `is_open` check also returns `false`, admitting a second call —
contradicting the claim that exactly one trial is permitted. -/
theorem C2_counterexample :
    (is_open 16 cbHalf).1 = false ∧
    (is_open 16 cbHalf).2.state = CBState.halfOpen ∧
    (is_open 16 (is_open 16 cbHalf).2).1 = false ∧
    (is_open 16 (is_open 16 cbHalf).2).2.state = CBState.halfOpen := by
  norm_num [is_open, cbHalf, pyTruthyTime]
  decide

/-- C2 (amended): once the breaker is `open` and `recovery_timeout` has elapsed
since its (nonzero) last failure instant, the next `is_open` check admits a call
and moves the state to `half-open`; a success on that trial moves the state to
`closed` (counter zero), a failure returns it to `open` and resets the recovery
timer to the failure instant.  However the breaker does not limit admission to a
single trial: while `half-open`, every further `is_open` check also admits a
call until some success or failure resolves the state. -/
theorem C2_half_open_amended (cb : CircuitBreaker) (t now : ℚ)
    (hst : cb.state = CBState.opened) (hlf : cb.last_failure_time = some t)
    (ht : t ≠ 0) (hwin : cb.recovery_timeout < now - t)
    (hth : cb.failure_threshold ≤ cb.failure_count + 1) :
    is_open now cb = (false, { cb with state := CBState.halfOpen }) ∧
    (call_succeeded { cb with state := CBState.halfOpen }).state = CBState.closed ∧
    (call_succeeded { cb with state := CBState.halfOpen }).failure_count = 0 ∧
    (∀ now2 : ℚ,
      (call_failed now2 { cb with state := CBState.halfOpen }).state = CBState.opened ∧
      (call_failed now2 { cb with state := CBState.halfOpen }).last_failure_time =
        some now2) ∧
    (∀ now3 : ℚ, (is_open now3 { cb with state := CBState.halfOpen }).1 = false) := by
  refine ⟨?_, rfl, rfl, ?_, ?_⟩
  · unfold is_open
    rw [if_neg (by rw [hst]; exact fun h => CBState.noConfusion h)]
    rw [if_pos ⟨hst, by simp [pyTruthyTime, hlf, ht], by simpa [hlf] using hwin⟩]
  · intro now2
    constructor
    · unfold call_failed
      rw [if_pos (by simpa using hth)]
    · exact call_failed_last now2 _
  · intro now3
    unfold is_open
    rw [if_neg (by simp), if_neg (by rintro ⟨h, -⟩; simp at h)]
    simp

theorem C2_half_open_amended_witness :
    is_open 16 cbHalf = (false, { cbHalf with state := CBState.halfOpen }) ∧
    (call_failed 99 { cbHalf with state := CBState.halfOpen }).state = CBState.opened ∧
    (is_open 17 { cbHalf with state := CBState.halfOpen }).1 = false := by
  have h := C2_half_open_amended cbHalf 5 16 rfl rfl (by norm_num) (by norm_num [cbHalf])
    (by decide)
  exact ⟨h.1, (h.2.2.2.1 99).1, h.2.2.2.2 17⟩

/-! Supporting lemmas for the rate limiter. -/

theorem acquire_repeat_drain (now : ℚ) (r : ℚ) (b : ℕ) :
    ∀ c : ℕ, c ≤ b →
      acquire_repeat now (c + 1) ⟨r, b, (c : ℚ), now⟩ =
        (List.replicate c 0 ++ [1 / r], ⟨r, b, 0, now⟩) := by
  intro c
  induction c with
  | zero =>
    intro _
    simp [acquire_repeat, acquire]
  | succ c ih =>
    intro hcb
    have hstep : acquire now ⟨r, b, ((c + 1 : ℕ) : ℚ), now⟩ =
        (0, ⟨r, b, (c : ℚ), now⟩) := by
      unfold acquire
      have hmin : min (b : ℚ) (((c + 1 : ℕ) : ℚ) + (now - now) * r) = ((c + 1 : ℕ) : ℚ) := by
        rw [sub_self, zero_mul, add_zero]
        exact min_eq_right (by exact_mod_cast hcb)
      rw [hmin]
      rw [if_neg (by push_cast; linarith)]
      congr 1
      push_cast
      ring_nf
    show (let rr := acquire now ⟨r, b, ((c + 1 : ℕ) : ℚ), now⟩
          let rest := acquire_repeat now (c + 1) rr.2
          (rr.1 :: rest.1, rest.2)) = _
    rw [hstep]
    have := ih (Nat.le_of_succ_le hcb)
    simp only [this]
    simp [List.replicate_succ]

/-! Supporting lemmas for association lists (the cache tiers and data maps). -/

theorem alLookup_alInsert_self {κ α : Type} [DecidableEq κ] (k : κ) (v : α)
    (l : List (κ × α)) : alLookup k (alInsert k v l) = some v := by
  induction l with
  | nil => simp [alInsert, alLookup]
  | cons p rest ih =>
    obtain ⟨k2, v2⟩ := p
    by_cases h : k2 = k
    · simp [alInsert, h, alLookup]
    · simp [alInsert, h, alLookup, ih]

theorem alLookup_eq_none_of_not_mem {κ α : Type} [DecidableEq κ] (k : κ)
    (l : List (κ × α)) (h : k ∉ l.map Prod.fst) : alLookup k l = none := by
  induction l with
  | nil => rfl
  | cons p rest ih =>
    obtain ⟨k2, v2⟩ := p
    simp only [List.map_cons, List.mem_cons] at h
    push_neg at h
    have hne : ¬k2 = k := fun he => h.1 he.symm
    simp [alLookup, hne, ih h.2]

theorem alLookup_alErase_self {κ α : Type} [DecidableEq κ] (k : κ)
    (l : List (κ × α)) (h : (l.map Prod.fst).Nodup) : alLookup k (alErase k l) = none := by
  induction l with
  | nil => rfl
  | cons p rest ih =>
    obtain ⟨k2, v2⟩ := p
    simp only [List.map_cons, List.nodup_cons] at h
    by_cases hk : k2 = k
    · subst hk
      simpa [alErase] using alLookup_eq_none_of_not_mem k2 rest h.1
    · simp [alErase, hk, alLookup, ih h.2]

theorem mem_map_fst_alInsert {κ α : Type} [DecidableEq κ] {k x : κ} {v : α}
    {l : List (κ × α)} (h : x ∈ (alInsert k v l).map Prod.fst) :
    x = k ∨ x ∈ l.map Prod.fst := by
  induction l with
  | nil => simpa [alInsert] using h
  | cons p rest ih =>
    obtain ⟨k2, v2⟩ := p
    by_cases hk : k2 = k
    · subst hk
      simpa [alInsert] using h
    · simp only [alInsert, if_neg hk, List.map_cons, List.mem_cons] at h
      rcases h with h | h
      · exact Or.inr (by simp [h])
      · rcases ih h with h | h
        · exact Or.inl h
        · exact Or.inr (by simp [h])

theorem nodup_map_fst_alInsert {κ α : Type} [DecidableEq κ] (k : κ) (v : α)
    (l : List (κ × α)) (h : (l.map Prod.fst).Nodup) :
    ((alInsert k v l).map Prod.fst).Nodup := by
  induction l with
  | nil => simp [alInsert]
  | cons p rest ih =>
    obtain ⟨k2, v2⟩ := p
    simp only [List.map_cons, List.nodup_cons] at h
    by_cases hk : k2 = k
    · subst hk
      simpa [alInsert, List.nodup_cons] using h
    · simp only [alInsert, if_neg hk, List.map_cons]
      refine List.nodup_cons.mpr ⟨?_, ih h.2⟩
      intro hmem
      rcases mem_map_fst_alInsert hmem with h2 | h2
      · exact hk h2
      · exact h.1 h2

theorem alErase_sublist {κ α : Type} [DecidableEq κ] (k : κ) (l : List (κ × α)) :
    (alErase k l).Sublist l := by
  induction l with
  | nil => simp [alErase]
  | cons p rest ih =>
    obtain ⟨k2, v2⟩ := p
    by_cases hk : k2 = k
    · simp [alErase, hk]
    · simpa [alErase, hk] using ih.cons₂ (k2, v2)

theorem nodup_map_fst_alErase {κ α : Type} [DecidableEq κ] (k : κ)
    (l : List (κ × α)) (h : (l.map Prod.fst).Nodup) :
    ((alErase k l).map Prod.fst).Nodup :=
  h.sublist ((alErase_sublist k l).map Prod.fst)

/-! Supporting lemmas for the response cache. -/

theorem oldestKey_isSome (l : List (CacheKey × ℚ × Response)) (h : l ≠ []) :
    ∃ ok, oldestKey l = some ok := by
  cases l with
  | nil => exact absurd rfl h
  | cons p rest => exact ⟨_, rfl⟩

theorem set_shape (rc : ResponseCache) (url : String) (headers : List (String × String))
    (resp : Response) (now : ℚ) (hsize : 0 < rc.max_size) :
    ∃ mem0, (mem0 = rc.mem ∨ ∃ ok, mem0 = alErase ok rc.mem) ∧
      ResponseCache.set now url headers resp rc =
        some { rc with mem := alInsert (get_cache_key url headers) (now, resp) mem0,
                       disk := alInsert (get_cache_key url headers) (now, resp) rc.disk } := by
  unfold ResponseCache.set
  by_cases h : rc.max_size ≤ rc.mem.length
  · have hne : rc.mem ≠ [] := by
      intro he
      rw [he] at h
      simp at h
      omega
    obtain ⟨ok, hok⟩ := oldestKey_isSome rc.mem hne
    exact ⟨alErase ok rc.mem, Or.inr ⟨ok, rfl⟩, by simp [h, hok]⟩
  · exact ⟨rc.mem, Or.inl rfl, by simp [h]⟩

/-- C5 counterexample: on the empty cache `rcEx` (TTL 10), `set` at instant 0
followed by `get` at instant 20 (age 20 > TTL) returns a miss and drops the
entry from the in-memory tier — but the very same `get` leaves the entry in the
cache's disk tier, so the expired entry is not dropped from the (two-tier)
cache on that discovery, contrary to the claim. -/
theorem C5_counterexample :
    ResponseCache.set 0 urlEx [] respEx rcEx = some rc1Ex ∧
    (ResponseCache.get 20 urlEx [] rc1Ex).1 = none ∧
    alLookup (get_cache_key urlEx []) (ResponseCache.get 20 urlEx [] rc1Ex).2.mem = none ∧
    alLookup (get_cache_key urlEx []) (ResponseCache.get 20 urlEx [] rc1Ex).2.disk =
      some (0, respEx) := by
  refine ⟨?_, ?_, ?_, ?_⟩ <;>
    norm_num [ResponseCache.set, ResponseCache.get, disk_tier_get, get_cache_key,
      rcEx, rc1Ex, alInsert, alLookup, alErase, oldestKey, oldestKeyAux]

/-- C5 (amended): for every `(url, headers)` key and response, `set` followed
immediately by `get` returns the response; once the entry's age exceeds the TTL,
`get` returns a miss and the expired entry is dropped from the in-memory tier on
that discovery, while the on-disk copy of the entry is retained (the source
removes a cache file only when unpickling it fails). -/
theorem C5_cache_roundtrip_amended (rc : ResponseCache) (url : String)
    (headers : List (String × String)) (resp : Response) (now t2 : ℚ)
    (hnodup : (rc.mem.map Prod.fst).Nodup) (hsize : 0 < rc.max_size)
    (httl : 0 < rc.ttl_seconds) (hexp : rc.ttl_seconds < t2 - now) :
    ∃ rc1, ResponseCache.set now url headers resp rc = some rc1 ∧
      (ResponseCache.get now url headers rc1).1 = some resp ∧
      (ResponseCache.get t2 url headers rc1).1 = none ∧
      alLookup (get_cache_key url headers) (ResponseCache.get t2 url headers rc1).2.mem =
        none ∧
      alLookup (get_cache_key url headers) (ResponseCache.get t2 url headers rc1).2.disk =
        some (now, resp) := by
  obtain ⟨mem0, hmem0, hset⟩ := set_shape rc url headers resp now hsize
  have hnodup0 : (mem0.map Prod.fst).Nodup := by
    rcases hmem0 with rfl | ⟨ok, rfl⟩
    · exact hnodup
    · exact nodup_map_fst_alErase ok rc.mem hnodup
  refine ⟨_, hset, ?_, ?_, ?_, ?_⟩
  · simp [ResponseCache.get, alLookup_alInsert_self, sub_self, httl]
  · have hnotlt : ¬(t2 - now < rc.ttl_seconds) := not_lt.mpr hexp.le
    simp [ResponseCache.get, alLookup_alInsert_self, hnotlt, disk_tier_get]
  · have hnotlt : ¬(t2 - now < rc.ttl_seconds) := not_lt.mpr hexp.le
    simp [ResponseCache.get, alLookup_alInsert_self, hnotlt, disk_tier_get,
      alLookup_alErase_self _ _ (nodup_map_fst_alInsert _ _ mem0 hnodup0)]
  · have hnotlt : ¬(t2 - now < rc.ttl_seconds) := not_lt.mpr hexp.le
    simp [ResponseCache.get, alLookup_alInsert_self, hnotlt, disk_tier_get]

theorem C5_cache_roundtrip_amended_witness :
    ∃ rc1, ResponseCache.set 0 urlEx [] respEx rcEx = some rc1 ∧
      (ResponseCache.get 0 urlEx [] rc1).1 = some respEx ∧
      (ResponseCache.get 20 urlEx [] rc1).1 = none ∧
      alLookup (get_cache_key urlEx []) (ResponseCache.get 20 urlEx [] rc1).2.mem = none ∧
      alLookup (get_cache_key urlEx []) (ResponseCache.get 20 urlEx [] rc1).2.disk =
        some (0, respEx) :=
  C5_cache_roundtrip_amended rcEx urlEx [] respEx 0 20 (by simp [rcEx])
    (by norm_num [rcEx]) (by norm_num [rcEx]) (by norm_num [rcEx])

/-- C4: a `RateLimiter` with rate `r` and burst capacity `b` whose bucket starts
full, hit by `b + 1` back-to-back `acquire` calls (zero elapsed wall-clock time
between them): the first `b` calls return with a slept duration of 0 and the
`(b+1)`-th call sleeps exactly `1 / r` seconds (hence at least `1 / r`).
`acquire` is a total function — it never fails, it only delays. -/
theorem C4_rate_limiter_burst (r : ℚ) (b : ℕ) (now : ℚ) :
    acquire_repeat now (b + 1) ⟨r, b, (b : ℚ), now⟩ =
      (List.replicate b 0 ++ [1 / r], ⟨r, b, 0, now⟩) :=
  acquire_repeat_drain now r b b le_rfl

/-! Supporting lemmas for the extraction loop. -/

theorem extract_fields_count (fields : List (String × FieldOutcome)) :
    (extract_fields fields).2.1 = numNonNull fields := by
  induction fields with
  | nil => rfl
  | cons p rest ih =>
    obtain ⟨name, o⟩ := p
    cases o <;> simp [extract_fields, numNonNull, List.filter_cons] at ih ⊢ <;> omega

theorem extract_fields_warnings (fields : List (String × FieldOutcome)) :
    (extract_fields fields).2.2.2 = fields.filterMap fun p =>
      match p.2 with
      | FieldOutcome.nullVal => some ("No data found for " ++ p.1)
      | _ => none := by
  induction fields with
  | nil => rfl
  | cons p rest ih =>
    obtain ⟨name, o⟩ := p
    cases o <;> simp [extract_fields, List.filterMap_cons, ih]

theorem extract_fields_errors (fields : List (String × FieldOutcome)) :
    (extract_fields fields).2.2.1 = fields.filterMap fun p =>
      match p.2 with
      | FieldOutcome.exn m => some ("Error extracting " ++ p.1 ++ ": " ++ m)
      | _ => none := by
  induction fields with
  | nil => rfl
  | cons p rest ih =>
    obtain ⟨name, o⟩ := p
    cases o <;> simp [extract_fields, List.filterMap_cons, ih]

theorem extract_fields_data (fields : List (String × FieldOutcome)) :
    (extract_fields fields).1 = fields.filterMap fun p =>
      match p.2 with
      | FieldOutcome.val v => some (p.1, v)
      | _ => none := by
  induction fields with
  | nil => rfl
  | cons p rest ih =>
    obtain ⟨name, o⟩ := p
    cases o <;> simp [extract_fields, List.filterMap_cons, ih]

/-- C6 counterexample: with two requested fields of which one extracts, the
reported `extraction_success_rate` is 50 (the source multiplies by 100), not the
ratio 1/2 the claim states. -/
theorem C6_counterexample :
    extraction_rate fieldsEx = 50 ∧ (50 : ℚ) ≠ (1 : ℚ) / 2 := by
  constructor
  · norm_num [extraction_rate, extract_fields, fieldsEx]
  · norm_num

/-- C6 (amended): for every extraction over a non-empty selector map, the
reported success rate equals 100 × (number of fields with a non-null extracted
value) / (total number of fields requested) — the ratio expressed as a
percentage; every field whose extraction yields null adds exactly its warning
message to the warnings list and nothing to the errors list, only a
selector-evaluation exception adds its message to the errors list, and every
field with a non-null value is collected — no outcome aborts extraction of the
remaining fields. -/
theorem C6_extraction_rate_amended (fields : List (String × FieldOutcome))
    (hne : fields ≠ []) :
    extraction_rate fields = 100 * (numNonNull fields : ℚ) / (fields.length : ℚ) ∧
    (extract_fields fields).2.2.2 = (fields.filterMap fun p =>
      match p.2 with
      | FieldOutcome.nullVal => some ("No data found for " ++ p.1)
      | _ => none) ∧
    (extract_fields fields).2.2.1 = (fields.filterMap fun p =>
      match p.2 with
      | FieldOutcome.exn m => some ("Error extracting " ++ p.1 ++ ": " ++ m)
      | _ => none) ∧
    (extract_fields fields).1 = (fields.filterMap fun p =>
      match p.2 with
      | FieldOutcome.val v => some (p.1, v)
      | _ => none) := by
  refine ⟨?_, extract_fields_warnings fields, extract_fields_errors fields,
    extract_fields_data fields⟩
  have hlen : 0 < fields.length := List.length_pos.mpr hne
  rw [extraction_rate, if_pos hlen, extract_fields_count]
  ring

theorem C6_extraction_rate_amended_witness :
    extraction_rate fieldsEx = 100 * (numNonNull fieldsEx : ℚ) / (fieldsEx.length : ℚ) ∧
    (extract_fields fieldsEx).2.2.2 = (fieldsEx.filterMap fun p =>
      match p.2 with
      | FieldOutcome.nullVal => some ("No data found for " ++ p.1)
      | _ => none) := by
  have h := C6_extraction_rate_amended fieldsEx (by simp [fieldsEx])
  exact ⟨h.1, h.2.1⟩

/-! Supporting lemmas for change classification. -/

theorem alLookup_append {κ α : Type} [DecidableEq κ] (k : κ) (l1 l2 : List (κ × α)) :
    alLookup k (l1 ++ l2) =
      match alLookup k l1 with
      | some v => some v
      | none => alLookup k l2 := by
  induction l1 with
  | nil => rfl
  | cons p rest ih =>
    obtain ⟨k2, v2⟩ := p
    by_cases hk : k2 = k <;> simp [alLookup, hk, ih]

theorem map_fst_filterMap_keyed {κ α β : Type} [DecidableEq κ]
    (g : κ → α → Option β) (l : List (κ × α)) {x : κ}
    (h : x ∈ (l.filterMap fun p => (g p.1 p.2).map fun c => (p.1, c)).map Prod.fst) :
    x ∈ l.map Prod.fst := by
  simp only [List.mem_map, List.mem_filterMap, Option.map_eq_some'] at h
  obtain ⟨q, ⟨p, hp, c, hc, hq⟩, hx⟩ := h
  subst hq
  exact List.mem_map.mpr ⟨p, hp, hx⟩

theorem alLookup_filterMap_keyed {κ α β : Type} [DecidableEq κ]
    (g : κ → α → Option β) (l : List (κ × α)) (k : κ)
    (h : (l.map Prod.fst).Nodup) :
    alLookup k (l.filterMap fun p => (g p.1 p.2).map fun c => (p.1, c)) =
      (alLookup k l).bind (g k) := by
  induction l with
  | nil => rfl
  | cons p rest ih =>
    obtain ⟨k2, v2⟩ := p
    simp only [List.map_cons, List.nodup_cons] at h
    by_cases hk : k2 = k
    · subst hk
      cases hg : g k2 v2 with
      | some c => simp [List.filterMap_cons, hg, alLookup]
      | none =>
        have hnone : alLookup k2
            (rest.filterMap fun p => (g p.1 p.2).map fun c => (p.1, c)) = none := by
          apply alLookup_eq_none_of_not_mem
          intro hmem
          exact h.1 (map_fst_filterMap_keyed g rest hmem)
        simp [List.filterMap_cons, hg, alLookup, hnone]
    · cases hg : g k2 v2 with
      | some c => simp [List.filterMap_cons, hg, alLookup, hk, ih h.2]
      | none => simp [List.filterMap_cons, hg, alLookup, hk, ih h.2]

theorem detect_change_type_of_ne (pv cv : Value) (hne : cv ≠ pv) :
    detect_change_type pv cv = claimed_change_type pv cv := by
  cases pv with
  | str s => cases cv <;> rfl
  | num p =>
    cases cv with
    | str s2 => rfl
    | num c =>
      have hnep : c ≠ p := fun h => hne (by rw [h])
      show (if p < c then "increased" else if c < p then "decreased" else "modified") =
        if p < c then "increased" else "decreased"
      by_cases hpc : p < c
      · rw [if_pos hpc, if_pos hpc]
      · have hcp : c < p := lt_of_le_of_ne (not_lt.mp hpc) hnep
        rw [if_neg hpc, if_neg hpc, if_pos hcp]

/-- C8: for a pair of consecutive extraction mappings (dicts, so keys are
unique), `compare_with` classifies a field present in both with differing
values as `increased`/`decreased` when both values are numeric (by the numeric
comparison) and as `modified` otherwise; a field absent previously is `added`,
a field present previously but absent now is `removed`, and an unchanged field
produces no entry. -/
theorem C8_change_classification (current previous : List (String × Value))
    (hc : (current.map Prod.fst).Nodup) (hp : (previous.map Prod.fst).Nodup)
    (k : String) :
    (∀ cv pv, alLookup k current = some cv → alLookup k previous = some pv →
      cv ≠ pv →
      alLookup k (compare_with current previous) =
        some ⟨some pv, some cv, claimed_change_type pv cv⟩) ∧
    (∀ cv, alLookup k current = some cv → alLookup k previous = none →
      alLookup k (compare_with current previous) = some ⟨none, some cv, "added"⟩) ∧
    (∀ pv, alLookup k current = none → alLookup k previous = some pv →
      alLookup k (compare_with current previous) = some ⟨some pv, none, "removed"⟩) ∧
    (∀ v, alLookup k current = some v → alLookup k previous = some v →
      alLookup k (compare_with current previous) = none) := by
  have hpass1 := alLookup_filterMap_keyed (compare_entry previous) current k hc
  have hpass2 := alLookup_filterMap_keyed (removed_entry current) previous k hp
  refine ⟨?_, ?_, ?_, ?_⟩
  · intro cv pv hcur hprev hne
    have hentry : compare_entry previous k cv =
        some ⟨some pv, some cv, detect_change_type pv cv⟩ := by
      unfold compare_entry
      rw [hprev]
      exact if_pos hne
    rw [compare_with, alLookup_append, hpass1, hcur]
    simp only [Option.some_bind, hentry, detect_change_type_of_ne pv cv hne]
  · intro cv hcur hprev
    have hentry : compare_entry previous k cv = some ⟨none, some cv, "added"⟩ := by
      unfold compare_entry
      rw [hprev]
    rw [compare_with, alLookup_append, hpass1, hcur]
    simp only [Option.some_bind, hentry]
  · intro pv hcur hprev
    have hrem : removed_entry current k pv = some ⟨some pv, none, "removed"⟩ := by
      unfold removed_entry
      exact if_pos hcur
    rw [compare_with, alLookup_append, hpass1, hcur]
    simp only [Option.none_bind]
    rw [hpass2, hprev]
    simp only [Option.some_bind, hrem]
  · intro v hcur hprev
    have hentry : compare_entry previous k v = none := by
      unfold compare_entry
      rw [hprev]
      exact if_neg (by simp)
    have hrem : removed_entry current k v = none := by
      unfold removed_entry
      exact if_neg (by simp [hcur])
    rw [compare_with, alLookup_append, hpass1, hcur]
    simp only [Option.some_bind, hentry]
    rw [hpass2, hprev]
    simp only [Option.some_bind, hrem]

/-- C7: the comma-decimal branch of `_extract_price` is dead code — after the
source deletes every comma (`price_text.replace(',', '')`, line 522) the guard
`',' in price_text` can never hold, so ',' is never accepted as a decimal mark;
on the comma-decimal text "€7,5" the code yields 75 (comma swallowed as a
thousands separator), where the claim requires 7.5; the claim's own example
"$1,234.56" does coerce to 1234.56. -/
theorem C7_price_coercion_comma_branch_dead :
    (∀ text : List Char, (remove_commas (strip_currency text)).count ',' = 0) ∧
    extract_price ['€', '7', ',', '5'] = some 75 ∧
    extract_price ['$', '1', ',', '2', '3', '4', '.', '5', '6'] =
      some ((123456 : ℚ) / 100) := by
  refine ⟨?_, ?_, ?_⟩
  · intro text
    rw [List.count_eq_zero]
    intro hmem
    have h := (List.mem_filter.mp hmem).2
    simp [remove_commas] at h
  · have hp : extract_price_parts ['€', '7', ',', '5'] = some (75, 0) := by decide
    rw [extract_price, hp]
    norm_num [ratOfParts]
  · have hp : extract_price_parts ['$', '1', ',', '2', '3', '4', '.', '5', '6'] =
        some (123456, 2) := by decide
    rw [extract_price, hp]
    norm_num [ratOfParts]

/-! Supporting lemmas for the proxy rotator. -/

theorem get_proxy_loop_sound (now : ℚ) :
    ∀ (fuel attempts : ℕ) (pr : ProxyRotator) (j : ℕ),
      (get_proxy_loop now attempts fuel pr).1 = some j →
      ∃ p, pr.proxies[j]? = some p ∧
        (p.blocked = false ∨ ∃ t, p.last_used = some t ∧ pr.retry_after < now - t) := by
  intro fuel
  induction fuel with
  | zero =>
    intro attempts pr j h
    simp [get_proxy_loop] at h
  | succ fuel ih =>
    intro attempts pr j h
    rw [get_proxy_loop] at h
    by_cases hlen : attempts < pr.proxies.length
    · rw [if_pos hlen] at h
      cases hget : pr.proxies[pr.current_index]? with
      | none => rw [hget] at h; simp at h
      | some proxy =>
        rw [hget] at h
        dsimp only at h
        by_cases hb : proxy.blocked = true
        · rw [if_pos hb] at h
          cases hlast : proxy.last_used with
          | none =>
            rw [hlast] at h
            dsimp only at h
            exact ih (attempts + 1)
              { pr with current_index := (pr.current_index + 1) % pr.proxies.length } j h
          | some t =>
            rw [hlast] at h
            dsimp only at h
            by_cases hwin : pr.retry_after < now - t
            · rw [if_pos hwin] at h
              have hj : pr.current_index = j := by simpa using h
              subst hj
              exact ⟨proxy, hget, Or.inr ⟨t, hlast, hwin⟩⟩
            · rw [if_neg hwin] at h
              exact ih (attempts + 1)
                { pr with current_index := (pr.current_index + 1) % pr.proxies.length } j h
        · rw [if_neg hb] at h
          have hj : pr.current_index = j := by simpa using h
          subst hj
          simp only [Bool.not_eq_true] at hb
          exact ⟨proxy, hget, Or.inl hb⟩
    · rw [if_neg hlen] at h
      simp at h

theorem get_proxy_loop_frame (now : ℚ) :
    ∀ (fuel attempts : ℕ) (pr : ProxyRotator) (i : ℕ),
      (get_proxy_loop now attempts fuel pr).1 ≠ some i →
      (get_proxy_loop now attempts fuel pr).2.proxies[i]? = pr.proxies[i]? := by
  intro fuel
  induction fuel with
  | zero => intro attempts pr i _; rfl
  | succ fuel ih =>
    intro attempts pr i hne
    rw [get_proxy_loop] at hne ⊢
    by_cases hlen : attempts < pr.proxies.length
    · rw [if_pos hlen] at hne ⊢
      cases hget : pr.proxies[pr.current_index]? with
      | none => rfl
      | some proxy =>
        rw [hget] at hne
        dsimp only at hne ⊢
        by_cases hb : proxy.blocked = true
        · rw [if_pos hb] at hne ⊢
          cases hlast : proxy.last_used with
          | none =>
            rw [hlast] at hne
            dsimp only at hne ⊢
            exact ih (attempts + 1)
              { pr with current_index := (pr.current_index + 1) % pr.proxies.length } i hne
          | some t =>
            rw [hlast] at hne
            dsimp only at hne ⊢
            by_cases hwin : pr.retry_after < now - t
            · rw [if_pos hwin] at hne ⊢
              have hni : pr.current_index ≠ i := by simpa using hne
              exact List.getElem?_set_ne hni
            · rw [if_neg hwin] at hne ⊢
              exact ih (attempts + 1)
                { pr with current_index := (pr.current_index + 1) % pr.proxies.length } i hne
        · rw [if_neg hb] at hne ⊢
          have hni : pr.current_index ≠ i := by simpa using hne
          exact List.getElem?_set_ne hni
    · rw [if_neg hlen]

/-- C9: for every proxy in the rotator, a failure report flagged as blocking
(or one that pushes the failure count over the quarantine threshold 5) sets its
quarantine flag; while the flag is set and the quarantine window since the
proxy's last selection has not elapsed, `get_proxy` never returns that proxy
and leaves it untouched (so repeated calls keep excluding it); once the window
has elapsed, the proxy becomes eligible again — when the round-robin cursor
reaches it, it is selected and its flag is cleared. -/
theorem C9_proxy_quarantine (pr : ProxyRotator) (i : ℕ) (p : ProxyConfig) (now : ℚ)
    (hp : pr.proxies[i]? = some p) :
    ((mark_failure i true pr).proxies[i]? =
      some { p with fail_count := p.fail_count + 1, blocked := true }) ∧
    (∀ b : Bool, 5 < p.fail_count + 1 →
      (mark_failure i b pr).proxies[i]? =
        some { p with fail_count := p.fail_count + 1, blocked := true }) ∧
    (∀ t, p.blocked = true → p.last_used = some t → now - t ≤ pr.retry_after →
      (get_proxy now pr).1 ≠ some i ∧
      (get_proxy now pr).2.proxies[i]? = some p) ∧
    (∀ t, p.blocked = true → p.last_used = some t → pr.retry_after < now - t →
      pr.current_index = i →
      get_proxy now pr =
        (some i, { pr with current_index := (i + 1) % pr.proxies.length,
                           proxies := pr.proxies.set i
                             { p with blocked := false, last_used := some now } })) := by
  have hlen : i < pr.proxies.length := by
    by_contra hge
    rw [List.getElem?_eq_none (Nat.le_of_not_lt hge)] at hp
    exact Option.noConfusion hp
  have hpos : 0 < pr.proxies.length := Nat.lt_of_le_of_lt (Nat.zero_le i) hlen
  have hnem : ¬pr.proxies.isEmpty = true := by
    simp [List.isEmpty_iff]
    exact List.ne_nil_of_length_pos hpos
  refine ⟨?_, ?_, ?_, ?_⟩
  · simp only [mark_failure, hp]
    rw [if_pos (Or.inl trivial)]
    exact List.getElem?_set_eq_of_lt _ hlen
  · intro b h56
    simp only [mark_failure, hp]
    rw [if_pos (Or.inr h56)]
    exact List.getElem?_set_eq_of_lt _ hlen
  · intro t hb hlast hwin
    have hnotsel : (get_proxy now pr).1 ≠ some i := by
      intro hsel
      rw [get_proxy, if_neg hnem] at hsel
      obtain ⟨p2, hp2, hcond⟩ := get_proxy_loop_sound now pr.proxies.length 0 pr i hsel
      rw [hp] at hp2
      have hpp : p2 = p := by
        injection hp2 with h2
        exact h2.symm
      subst hpp
      rcases hcond with hfalse | ⟨t2, hlast2, hwin2⟩
      · rw [hb] at hfalse
        exact Bool.noConfusion hfalse
      · rw [hlast] at hlast2
        have ht : t2 = t := by
          injection hlast2 with h2
          exact h2.symm
        subst ht
        exact absurd hwin (not_le.mpr hwin2)
    refine ⟨hnotsel, ?_⟩
    rw [get_proxy, if_neg hnem]
    rw [get_proxy, if_neg hnem] at hnotsel
    exact (get_proxy_loop_frame now pr.proxies.length 0 pr i hnotsel).trans hp
  · intro t hb hlast hwin hcur
    obtain ⟨f, hf⟩ : ∃ f, pr.proxies.length = f + 1 :=
      ⟨pr.proxies.length - 1, (Nat.succ_pred_eq_of_pos hpos).symm⟩
    rw [get_proxy, if_neg hnem, hf, get_proxy_loop]
    rw [if_pos (by omega : 0 < pr.proxies.length)]
    rw [hcur, hp]
    simp only [hb, hlast, hwin, if_true]
    rw [hf]

theorem C9_proxy_quarantine_witness :
    ((get_proxy 10 prEx).1 ≠ some 0 ∧ (get_proxy 10 prEx).2.proxies[0]? = some pEx) ∧
    get_proxy 100 prEx =
      (some 0, { prEx with current_index := (0 + 1) % prEx.proxies.length,
                           proxies := prEx.proxies.set 0
                             { pEx with blocked := false, last_used := some 100 } }) := by
  have h1 := C9_proxy_quarantine prEx 0 pEx 10 rfl
  have h2 := C9_proxy_quarantine prEx 0 pEx 100 rfl
  exact ⟨h1.2.2.1 0 rfl rfl (by norm_num [prEx]),
         h2.2.2.2 0 rfl rfl (by norm_num [prEx]) rfl⟩

/-! Supporting lemmas for the strategy ladder. -/

theorem ladder_loop_all_fail (strats : List (String × StrategyOutcome)) :
    ∀ md : StrategyMetadata, (∀ p ∈ strats, truthyResult p.2 = false) →
      ladder_loop strats md =
        (none, ⟨md.attempts + strats.length, md.successful_strategy,
                md.errors ++ raised_errors strats⟩) := by
  induction strats with
  | nil => intro md _; simp [ladder_loop, raised_errors]
  | cons p rest ih =>
    intro md hfail
    obtain ⟨name, o⟩ := p
    have hhead := hfail (name, o) (List.mem_cons_self _ _)
    cases o with
    | ret data =>
      have hnil : data = [] := by simpa [truthyResult] using hhead
      subst hnil
      rw [ladder_loop, if_neg (by simp)]
      rw [ih _ fun p hp => hfail p (List.mem_cons_of_mem _ hp)]
      simp [raised_errors, List.filterMap_cons]
      omega
    | retNone =>
      rw [ladder_loop]
      rw [ih _ fun p hp => hfail p (List.mem_cons_of_mem _ hp)]
      simp [raised_errors, List.filterMap_cons]
      omega
    | raise msg =>
      rw [ladder_loop]
      rw [ih _ fun p hp => hfail p (List.mem_cons_of_mem _ hp)]
      simp [raised_errors, List.filterMap_cons]
      omega

theorem ladder_loop_first_success (pre : List (String × StrategyOutcome))
    (name : String) (data : List (String × Value))
    (post : List (String × StrategyOutcome)) :
    ∀ md : StrategyMetadata, (∀ p ∈ pre, truthyResult p.2 = false) → data ≠ [] →
      ladder_loop (pre ++ (name, StrategyOutcome.ret data) :: post) md =
        (some data, ⟨md.attempts + pre.length + 1, some name,
                     md.errors ++ raised_errors pre⟩) := by
  induction pre with
  | nil =>
    intro md _ hdata
    rw [List.nil_append, ladder_loop, if_pos hdata]
    simp [raised_errors]
  | cons p rest ih =>
    intro md hfail hdata
    obtain ⟨name2, o⟩ := p
    have hhead := hfail (name2, o) (List.mem_cons_self _ _)
    cases o with
    | ret d2 =>
      have hnil : d2 = [] := by simpa [truthyResult] using hhead
      subst hnil
      rw [List.cons_append, ladder_loop, if_neg (by simp)]
      rw [ih _ (fun p hp => hfail p (List.mem_cons_of_mem _ hp)) hdata]
      simp [raised_errors, List.filterMap_cons]
      omega
    | retNone =>
      rw [List.cons_append, ladder_loop]
      rw [ih _ (fun p hp => hfail p (List.mem_cons_of_mem _ hp)) hdata]
      simp [raised_errors, List.filterMap_cons]
      omega
    | raise msg =>
      rw [List.cons_append, ladder_loop]
      rw [ih _ (fun p hp => hfail p (List.mem_cons_of_mem _ hp)) hdata]
      simp [raised_errors, List.filterMap_cons]
      omega

theorem ladder_loop_some_ne_nil :
    ∀ (strats : List (String × StrategyOutcome)) (md : StrategyMetadata)
      (d : List (String × Value)) (md2 : StrategyMetadata),
      ladder_loop strats md = (some d, md2) → d ≠ [] := by
  intro strats
  induction strats with
  | nil =>
    intro md d md2 h
    simp [ladder_loop] at h
  | cons p rest ih =>
    intro md d md2 h
    obtain ⟨name, o⟩ := p
    cases o with
    | ret data =>
      rw [ladder_loop] at h
      by_cases hd : data ≠ []
      · rw [if_pos hd] at h
        have hfst := congrArg Prod.fst h
        have : data = d := by simpa using hfst
        subst this
        exact hd
      · rw [if_neg hd] at h
        exact ih _ d md2 h
    | retNone =>
      rw [ladder_loop] at h
      exact ih _ d md2 h
    | raise msg =>
      rw [ladder_loop] at h
      exact ih _ d md2 h

/-- C3 counterexample: a run in which all five strategies fail without raising
(four return `None`, Playwright returns an empty dict).  `scrape_with_strategy`
returns the typed failure `(None, metadata)` after 5 failed attempts, but the
per-strategy error list is empty — not one entry per failed attempt — and the
stealth branch then falls through to basic scraping with the target's
CircuitBreaker untouched (`failure_count` still 0), so ladder exhaustion alone
records no breaker failure. -/
theorem C3_counterexample :
    scrape_with_strategy allFailEx = (none, ⟨5, none, []⟩) ∧
    (scrape_with_strategy allFailEx).2.errors.length ≠
      (scrape_with_strategy allFailEx).2.attempts ∧
    stealth_phase ("t1") cbW (scrape_with_strategy allFailEx) false =
      (StealthPhase.fallThrough, cbW) ∧
    cbW.failure_count = 0 := by
  have hl : scrape_with_strategy allFailEx = (none, ⟨5, none, []⟩) := by decide
  refine ⟨hl, ?_, ?_, rfl⟩
  · rw [hl]
    decide
  · rw [hl]
    rfl

/-- C3 (amended): the ladder stops at the first strategy whose result is truthy
(a non-empty dict) — later strategies are never attempted; if every strategy
fails, the overall fetch returns the typed failure `(None, metadata)` — no
exception escapes — where the error list carries one entry, with its cause, per
strategy that *raised*; strategies that fail by returning a falsy value (`None`
or an empty dict) contribute no entry.  Ladder exhaustion itself records no
failure on the target's CircuitBreaker: the stealth branch falls through to
basic scraping with the breaker unchanged, and only that fallback's outcome
touches the breaker. -/
theorem C3_ladder_amended :
    (∀ (pre post : List (String × StrategyOutcome)) (name : String)
        (data : List (String × Value)),
      (∀ p ∈ pre, truthyResult p.2 = false) → data ≠ [] →
      scrape_with_strategy (pre ++ (name, StrategyOutcome.ret data) :: post) =
        (some data, ⟨pre.length + 1, some name, raised_errors pre⟩)) ∧
    (∀ strats : List (String × StrategyOutcome),
      (∀ p ∈ strats, truthyResult p.2 = false) →
      scrape_with_strategy strats = (none, ⟨strats.length, none, raised_errors strats⟩)) ∧
    (∀ (tid : String) (cb : CircuitBreaker) (md : StrategyMetadata) (cd : Bool),
      stealth_phase tid cb (none, md) cd = (StealthPhase.fallThrough, cb)) := by
  refine ⟨?_, ?_, fun tid cb md cd => rfl⟩
  · intro pre post name data hfail hdata
    have h := ladder_loop_first_success pre name data post ⟨0, none, []⟩ hfail hdata
    simpa [scrape_with_strategy] using h
  · intro strats hfail
    have h := ladder_loop_all_fail strats ⟨0, none, []⟩ hfail
    simpa [scrape_with_strategy] using h

theorem C3_ladder_amended_witness :
    scrape_with_strategy
      [("_scrape_basic_request", StrategyOutcome.raise ("boom")),
       ("_scrape_with_cloudscraper", StrategyOutcome.ret [("title", Value.str "x")]),
       ("_scrape_with_httpx", StrategyOutcome.retNone)] =
      (some [("title", Value.str "x")],
       ⟨2, some ("_scrape_with_cloudscraper"), [("_scrape_basic_request", "boom")]⟩) ∧
    scrape_with_strategy allFailEx = (none, ⟨5, none, raised_errors allFailEx⟩) := by
  constructor
  · have h := C3_ladder_amended.1 [("_scrape_basic_request", StrategyOutcome.raise ("boom"))]
      [("_scrape_with_httpx", StrategyOutcome.retNone)] ("_scrape_with_cloudscraper")
      [("title", Value.str "x")] (by decide) (by simp)
    simpa [raised_errors] using h
  · have h := C3_ladder_amended.2.1 allFailEx (by decide)
    simpa [allFailEx] using h

/-- C10: whenever the stealth strategy ladder hands back a data mapping (which
is always non-empty — a falsy result never exits the ladder as a success), the
result record returned to the caller has `extraction_success_rate = 100.0`,
`response_time_ms = 0` and `status_code = 200`, for every data mapping
whatsoever — the branch never reads the target's selector map, so the constants
hold regardless of how many requested fields were actually extracted. -/
theorem C10_stealth_result_constants :
    (∀ (strats : List (String × StrategyOutcome)) (d : List (String × Value))
        (md : StrategyMetadata),
      scrape_with_strategy strats = (some d, md) → d ≠ []) ∧
    (∀ (tid : String) (cb : CircuitBreaker) (md : StrategyMetadata)
        (data : List (String × Value)) (cd : Bool), data ≠ [] →
      stealth_phase tid cb (some data, md) cd =
        (StealthPhase.finished
          { target_id := tid, data := data, change_detected := cd,
            response_time_ms := 0, status_code := 200,
            extraction_success_rate := 100, errors := [] }, call_succeeded cb)) := by
  constructor
  · intro strats d md h
    exact ladder_loop_some_ne_nil strats ⟨0, none, []⟩ d md h
  · intro tid cb md data cd hdata
    rw [stealth_phase]
    dsimp only
    rw [if_pos hdata]

theorem C10_stealth_result_constants_witness :
    stealth_phase ("t1") cbW
        (some [("a", Value.str "x")], ⟨1, some ("_scrape_basic_request"), []⟩) true =
      (StealthPhase.finished
        { target_id := "t1", data := [("a", Value.str "x")], change_detected := true,
          response_time_ms := 0, status_code := 200,
          extraction_success_rate := 100, errors := [] }, call_succeeded cbW) ∧
    ([("a", Value.str "x")] : List (String × Value)) ≠ [] := by
  refine ⟨?_, by simp⟩
  have hne : ([("a", Value.str "x")] : List (String × Value)) ≠ [] := by simp
  have h2 := C10_stealth_result_constants.1
    [("s1", StrategyOutcome.ret [("a", Value.str "x")])] [("a", Value.str "x")]
    ⟨1, some ("s1"), []⟩ (by decide)
  exact C10_stealth_result_constants.2 ("t1") cbW
    ⟨1, some ("_scrape_basic_request"), []⟩ [("a", Value.str "x")] true hne

theorem C8_change_classification_witness :
    alLookup ("price") (compare_with curEx prevEx) =
      some ⟨some (Value.num 100), some (Value.num 80), "decreased"⟩ := by
  have h := (C8_change_classification curEx prevEx (by simp [curEx]) (by simp [prevEx])
    ("price")).1 (Value.num 80) (Value.num 100)
    (by simp [curEx, alLookup]) (by simp [prevEx, alLookup]) (by simp)
  rw [h]
  norm_num [claimed_change_type]

end ScrapeMaster
